import Mathlib

/-
Verification development for the raisin_master package manager.

The definitions below are a shallow embedding of the Python sources:
  * src/commands/install.py  — install_command, check_local_package,
    the target-specifier regex, the specifier parsing pipeline and the
    best-release selection loop;
  * src/commands/index.py    — parse_package_yaml, the PackageDb
    construction and the per-dependency classification of
    process_and_color_deps;
  * src/commands/setup.py    — move_key_before, topological_sort.

External libraries used by the code (packaging.version, packaging.specifiers)
are modelled by explicit definitions of their documented semantics on the
value domain the code can reach.  Filesystem and network effects are inputs
(an explicit environment record); yaml / requirement-string parsing done by
libraries is modelled at the value boundary where noted.
-/

/-
Semantic versions as compared by packaging.version.Version, restricted to
the released/pre-release fragment the manifests and tags of this repository
use: a numeric release tuple plus an optional pre-release (phase, number)
pair, where phase 0/1/2 stands for a/b/rc.  Epoch, post, dev and local
segments are not modelled.  A pre-release sorts before the plain release of
the same numeric tuple; release tuples compare with zero padding
(1.0 == 1.0.0), exactly as packaging's comparison key does.
-/
structure Version where
  release : List Nat
  pre : Option (Nat × Nat)
deriving DecidableEq, Repr

/-- Lexicographic comparison of two numeral lists (used on zero-padded,
equal-length lists; on unequal lengths the shorter prefix sorts first). -/
def lexCmp : List Nat → List Nat → Ordering
  | [], [] => .eq
  | [], _ :: _ => .lt
  | _ :: _, [] => .gt
  | a :: as, b :: bs =>
      if a < b then .lt else if b < a then .gt else lexCmp as bs

/-- Pad a release tuple with zeros on the right up to length `n`. -/
def padTo (n : Nat) (l : List Nat) : List Nat :=
  l ++ List.replicate (n - l.length) 0

/-- Release-tuple comparison with zero padding, as packaging compares
release segments. -/
def relCmp (a b : List Nat) : Ordering :=
  lexCmp (padTo (max a.length b.length) a) (padTo (max a.length b.length) b)

/-- Comparison of the optional pre-release part: a pre-release sorts before
the corresponding plain release; two pre-releases compare by (phase, num). -/
def preCmp : Option (Nat × Nat) → Option (Nat × Nat) → Ordering
  | none, none => .eq
  | some _, none => .lt
  | none, some _ => .gt
  | some p, some q =>
      if p.1 < q.1 then .lt else if q.1 < p.1 then .gt
      else if p.2 < q.2 then .lt else if q.2 < p.2 then .gt else .eq

/-- Total comparison of modelled versions (packaging.version ordering). -/
def verCmp (v w : Version) : Ordering :=
  match relCmp v.release w.release with
  | .eq => preCmp v.pre w.pre
  | o => o

/-- Boolean `v <= w` on versions. -/
def verLE (v w : Version) : Bool :=
  match verCmp v w with
  | .gt => false
  | _ => true

/-- Boolean `v < w` on versions. -/
def verLT (v w : Version) : Bool :=
  match verCmp v w with
  | .lt => true
  | _ => false

/-- Padded equality of release tuples (1.0 equals 1.0.0). -/
def relEqB (a b : List Nat) : Bool :=
  match relCmp a b with
  | .eq => true
  | _ => false

/-
Version specifiers, as packaging.specifiers evaluates them.  A clause is one
comparator plus a version; a specifier set is the conjunction of its
clauses.  The comparator set is the one reachable from the sources:
install_command extracts clause texts with re.findall(r"[<>=!~]+[\d.]+"),
so a clause's version text is a digit/dot tuple (never a pre-release);
index.py parses full requirement strings, whose clauses may carry a
pre-release.
-/
inductive Cop where
  | lt | le | gt | ge | eq | ne | tilde | triple
deriving DecidableEq, Repr

structure Clause where
  op : Cop
  ver : Version
deriving DecidableEq, Repr

/-- Wildcard match of a release tuple against a numeric pattern (the `==X.*`
half of packaging's `~=` operator): the first `p.length` segments of the
(zero-padded) candidate must equal `p`. -/
def wildcardMatch (p r : List Nat) : Bool :=
  ((padTo p.length r).take p.length) = p

/-- Satisfaction of one specifier clause by a version, following
packaging.specifiers._compare_* for each operator.  `==`/`!=` compare with
zero padding of the release and exact pre-release equality; `<` refuses a
pre-release of the spec's own release tuple unless the spec is itself a
pre-release; `~=` is `>=` plus a wildcard match of all but the last spec
segment; `===` is arbitrary (string) equality, modelled on normalized
segment tuples. -/
def clauseSat (c : Clause) (w : Version) : Bool :=
  match c.op with
  | .eq => relEqB c.ver.release w.release && c.ver.pre == w.pre
  | .ne => !(relEqB c.ver.release w.release && c.ver.pre == w.pre)
  | .le => verLE w c.ver
  | .ge => verLE c.ver w
  | .lt =>
      verLT w c.ver &&
        !(c.ver.pre.isNone && w.pre.isSome && relEqB w.release c.ver.release)
  | .gt => verLT c.ver w
  | .tilde => verLE c.ver w && wildcardMatch c.ver.release.dropLast w.release
  | .triple => c.ver.release == w.release && c.ver.pre == w.pre

/-- Whether a specifier set admits pre-release candidates: packaging's
SpecifierSet.prereleases — true exactly when some clause with operator in
{==, >=, <=, ~=, ===} carries a pre-release version. -/
def specAllowsPre (specs : List Clause) : Bool :=
  specs.any fun c =>
    (match c.op with
     | .eq | .ge | .le | .tilde | .triple => true
     | _ => false) && c.ver.pre.isSome

/-- SpecifierSet.contains (the `in` operator / spec.contains(version) in the
sources): a pre-release candidate is refused outright unless the set admits
pre-releases; otherwise every clause must be satisfied.  An empty set
accepts every non-pre-release version. -/
def containsVer (specs : List Clause) (w : Version) : Bool :=
  (w.pre.isNone || specAllowsPre specs) && specs.all (fun c => clauseSat c w)

/-
The target-specifier and clause scanners of install_command
(src/commands/install.py lines 66-91).
-/

/-- Character class of re [a-zA-Z0-9_.-] used for the package name. -/
def isNameChar (c : Char) : Bool :=
  c.isAlpha || c.isDigit || c == '_' || c == '.' || c == '-'

/-- Python's \s / str.strip() whitespace on the reachable character set. -/
def isWsChar (c : Char) : Bool :=
  c == ' ' || c == '\t' || c == '\n' || c == '\r' ||
    c.val == 11 || c.val == 12

/-- Characters matched by [<>=!~] in the clause scanner. -/
def isOpChar (c : Char) : Bool :=
  c == '<' || c == '>' || c == '=' || c == '!' || c == '~'

/-- Characters matched by [\d.] in the clause scanner. -/
def isVerChar (c : Char) : Bool :=
  c.isDigit || c == '.'

/-- Strip whitespace from both ends (str.strip()). -/
def trimWs (l : List Char) : List Char :=
  ((l.dropWhile isWsChar).reverse.dropWhile isWsChar).reverse

/-- Model of re.match(r"^\s*([a-zA-Z0-9_.-]+)\s*(.*)\s*$", target) followed
by spec_str.strip() in install_command: skip leading whitespace, take the
maximal run of name characters (failing when empty), and return the name
together with the stripped remainder.  Faithful to the regex for inputs
without an embedded newline (the only inputs the theorems use). -/
def parseTarget (s : String) : Option (String × String) :=
  let l := s.toList.dropWhile isWsChar
  let name := l.takeWhile isNameChar
  if name.isEmpty then none
  else some (name.asString, (trimWs (l.dropWhile isNameChar)).asString)

/-- One step of re.findall(r"[<>=!~]+[\d.]+", spec_str): at an operator
character, a match needs the maximal operator run to be followed at once by
at least one digit/dot; otherwise the scan advances one character.  The
fuel argument (instantiated with the input length, which every step
strictly consumes) keeps the recursion structural. -/
def scanGo : Nat → List Char → List (List Char × List Char)
  | 0, _ => []
  | _ + 1, [] => []
  | fuel + 1, c :: cs =>
    if isOpChar c then
      let ops := (c :: cs).takeWhile isOpChar
      let r1 := (c :: cs).dropWhile isOpChar
      let ver := r1.takeWhile isVerChar
      if ver.isEmpty then scanGo fuel cs
      else (ops, ver) :: scanGo fuel (r1.dropWhile isVerChar)
    else scanGo fuel cs

def scanClauses (l : List Char) : List (List Char × List Char) :=
  scanGo l.length l

/-- Split a digit/dot run at the dots (the version-tuple grammar of a
specifier clause). -/
def splitDots : List Char → List (List Char)
  | [] => [[]]
  | c :: cs =>
    let r := splitDots cs
    if c == '.' then [] :: r
    else match r with
      | [] => [[c]]
      | g :: gs => (c :: g) :: gs

/-- A well-formed numeral group: nonempty, all digits. -/
def chunkToNat (g : List Char) : Option Nat :=
  if g.isEmpty then none
  else if g.all Char.isDigit then
    some (g.foldl (fun n c => n * 10 + (c.toNat - 48)) 0)
  else none

def segsToNats : List (List Char) → Option (List Nat)
  | [] => some []
  | g :: gs =>
    match chunkToNat g, segsToNats gs with
    | some n, some ns => some (n :: ns)
    | _, _ => none

/-- Parse the version text of one clause: dot-separated nonempty numeral
groups (packaging refuses texts like "1.", ".1" or "1..2"). -/
def parseSegs (v : List Char) : Option (List Nat) :=
  segsToNats (splitDots v)

/-- Map an operator run onto packaging's comparator set; any other run
(e.g. "=", "~", ">>") makes SpecifierSet raise InvalidSpecifier. -/
def parseOpChars (ops : List Char) : Option Cop :=
  if ops = ['<'] then some .lt
  else if ops = ['<', '='] then some .le
  else if ops = ['>'] then some .gt
  else if ops = ['>', '='] then some .ge
  else if ops = ['=', '='] then some .eq
  else if ops = ['!', '='] then some .ne
  else if ops = ['~', '='] then some .tilde
  else if ops = ['=', '=', '='] then some .triple
  else none

/-- Build one clause from a scanned (operators, version-text) pair; `~=`
additionally needs at least two version segments.  Clause versions built
here never carry a pre-release part (the scanner only passes digits and
dots).  A clause the library would refuse yields none, which
install_command turns into its invalid-specifier error. -/
def buildClause (p : List Char × List Char) : Option Clause := do
  let op ← parseOpChars p.1
  let segs ← parseSegs p.2
  if op = .tilde ∧ segs.length < 2 then none
  else some ⟨op, ⟨segs, none⟩⟩

def buildClauses : List (List Char × List Char) → Option (List Clause)
  | [] => some []
  | p :: ps =>
    match buildClause p, buildClauses ps with
    | some c, some cs => some (c :: cs)
    | _, _ => none

/-- The whole spec_str pipeline of install_command: an empty spec_str
becomes SpecifierSet(">=0.0.0"); otherwise the scanned clauses are joined
and handed to SpecifierSet (the ", ".join and the dead ">, ="-replacement
cannot change scanned clauses, whose texts always end in a digit or dot).
A scan with no match yields the valid empty (unconstrained) set, exactly as
SpecifierSet("") does. -/
def parseSpecSet (spec_str : String) : Option (List Clause) :=
  if spec_str = "" then some [⟨.ge, ⟨[0, 0, 0], none⟩⟩]
  else buildClauses (scanClauses spec_str.toList)

/-
The filesystem / network boundary of install_command, as an explicit
environment.  A ReleaseDir is a directory at a probe path; its optional
release.yaml is given already parsed (yaml.safe_load with the `or {}`
fallback), with the version field classified exactly as the code
distinguishes it: key absent-or-falsy, present but rejected by
parse_version (InvalidVersion), or a parsed version.
-/
inductive YamlVersion where
  | absent
  | invalid
  | parsed (v : Version)
deriving DecidableEq, Repr

structure RYaml where
  version : YamlVersion
  dependencies : List String
deriving DecidableEq, Repr

structure ReleaseDir where
  manifest : Option RYaml
deriving DecidableEq, Repr

/-- One GitHub release: the raw tag_name (none models a missing/falsy tag),
its parse_version result alongside (none models InvalidVersion), the
prerelease flag, and the asset names. -/
structure Release where
  tag : Option String
  tagParsed : Option Version
  prerelease : Bool
  assets : List String
deriving DecidableEq, Repr

/-- all_repositories.get(name) plus the git@github.com owner/repo regex:
noRepo models a missing entry or missing "url" key (warning, skip); badUrl
models a url the regex refuses (error, run marked unsuccessful). -/
inductive RepoLookup where
  | noRepo
  | badUrl
  | repo (owner repoName : String)
deriving DecidableEq, Repr

/-- The ambient state install_command reads: `precompiled name` is the
directory at release/install/name/os/ver/arch/buildType for the run's
variant, `localSrc name` the directory src/name (none when not a
directory), `srcList` the subdirectory names of src/ appended to the
initial queue, `releases` the GitHub release list per owner/repo (none
models a raised network/HTTP error), `downloadOk` whether streaming an
asset succeeds, and `assetDeps` the dependencies list of the release.yaml
found inside an extracted asset (empty when the file is missing). -/
structure Env where
  precompiled : String → Option ReleaseDir
  localSrc : String → Option ReleaseDir
  srcList : List String
  repos : String → RepoLookup
  releases : String → String → Option (List Release)
  downloadOk : String → Bool
  assetDeps : String → List String
  osType : String
  osVersion : String
  arch : String
  buildType : String
  userDevel : Bool

/-- check_local_package (install.py lines 93-124) for a probe directory:
returns whether the candidate is a valid hit and the dependency specs that
get enqueued on a hit.  No directory: miss.  No release.yaml: hit only for
an empty raw spec string.  Version key absent/falsy: hit only for an empty
raw spec string.  InvalidVersion: warning, miss.  Parsed version: hit iff
the specifier set contains it.  Dependencies are enqueued only on a hit. -/
def check_local_package (dir : Option ReleaseDir) (spec_str : String)
    (spec : List Clause) : Bool × List String :=
  match dir with
  | none => (false, [])
  | some d =>
    match d.manifest with
    | none => (spec_str = "", [])
    | some ry =>
      let valid : Bool :=
        match ry.version with
        | .absent => spec_str = ""
        | .invalid => false
        | .parsed v => containsVer spec v
      (valid, if valid then ry.dependencies else [])

/-- One iteration of install_command's best-release selection
(install.py lines 179-195): skip a falsy tag, skip a prerelease-flagged
release unless the user type is devel, skip an unparsable tag, and take the
candidate when the specifier set contains it and it is at least the best so
far (initially 0.0.0). -/
def stepSel (spec : List Clause) (devel : Bool)
    (acc : Option Release × Version) (r : Release) : Option Release × Version :=
  match r.tag with
  | none => acc
  | some t =>
    if t = "" then acc
    else if r.prerelease && !devel then acc
    else
      match r.tagParsed with
      | none => acc
      | some v =>
        if containsVer spec v && verLE acc.2 v then (some r, v) else acc

def bestGo (spec : List Clause) (devel : Bool) :
    List Release → (Option Release × Version) → (Option Release × Version)
  | [], acc => acc
  | r :: rs, acc => bestGo spec devel rs (stepSel spec devel acc r)

/-- The selected release of the loop, started from (None, 0.0.0). -/
def bestRelease (rels : List Release) (spec : List Clause) (devel : Bool) :
    Option Release :=
  (bestGo spec devel rels (none, ⟨[0, 0, 0], none⟩)).1

/-- Everything install_command can do with one queue item, in source order.
parseSkip: the name regex failed (warning only).  specError: SpecifierSet
raised (run marked unsuccessful).  cacheHit/localHit carry the dependency
specs extended onto the queue.  localSkip: src/name exists but was no hit.
noRepo: no repository url (warning only).  badUrl: unparsable url.
netError: the release-list request raised.  noRelease: no satisfying
release.  alreadyProcessed: (name, tag) was memoized.  noAsset: the variant
asset name is absent from the chosen release.  downloadError: streaming the
asset raised.  installed: asset extracted, its manifest dependencies
enqueued. -/
inductive StepOutcome where
  | parseSkip
  | specError
  | cacheHit (deps : List String)
  | localHit (deps : List String)
  | localSkip
  | noRepo
  | badUrl
  | netError
  | noRelease
  | alreadyProcessed
  | noAsset (name version : String)
  | downloadError (name version : String)
  | installed (name version asset : String) (deps : List String)
deriving DecidableEq, Repr

/-- The body of install_command's while loop for one popped target
(install.py lines 66-272), as a function of the environment, the
memoization set and the target string. -/
def processTarget (env : Env) (processed : List (String × String))
    (target : String) : StepOutcome :=
  match parseTarget target with
  | none => .parseSkip
  | some (name, spec_str) =>
    match parseSpecSet spec_str with
    | none => .specError
    | some spec =>
      let pre := check_local_package (env.precompiled name) spec_str spec
      if pre.1 then .cacheHit pre.2
      else
        let loc := check_local_package (env.localSrc name) spec_str spec
        if loc.1 then .localHit loc.2
        else if (env.localSrc name).isSome then .localSkip
        else
          match env.repos name with
          | .noRepo => .noRepo
          | .badUrl => .badUrl
          | .repo owner repoName =>
            match env.releases owner repoName with
            | none => .netError
            | some rels =>
              match bestRelease rels spec env.userDevel with
              | none => .noRelease
              | some best =>
                let version := best.tag.getD ""
                if processed.contains (name, version) then .alreadyProcessed
                else
                  let asset := name ++ "-" ++ env.osType ++ "-" ++
                    env.osVersion ++ "-" ++ env.arch ++ "-" ++
                    env.buildType ++ "-" ++ version ++ ".zip"
                  if best.assets.contains asset then
                    if env.downloadOk asset then
                      .installed name version asset (env.assetDeps asset)
                    else .downloadError name version
                  else .noAsset name version

/-- Dependency specs the outcome extends onto the queue. -/
def stepEnqueues : StepOutcome → List String
  | .cacheHit deps => deps
  | .localHit deps => deps
  | .installed _ _ _ deps => deps
  | _ => []

/-- Whether the outcome sets is_successful = False. -/
def stepFails : StepOutcome → Bool
  | .specError => true
  | .badUrl => true
  | .netError => true
  | .noRelease => true
  | .noAsset _ _ => true
  | .downloadError _ _ => true
  | _ => false

/-- Whether control reached the GitHub releases request (session.get) for
this item — i.e. whether a network fetch happened for the name. -/
def stepFetched : StepOutcome → Bool
  | .netError => true
  | .noRelease => true
  | .alreadyProcessed => true
  | .noAsset _ _ => true
  | .downloadError _ _ => true
  | .installed _ _ _ _ => true
  | _ => false

/-- Pairs added to processed_packages by this outcome. -/
def stepAddsProcessed : StepOutcome → List (String × String)
  | .noAsset n v => [(n, v)]
  | .downloadError n v => [(n, v)]
  | .installed n v _ _ => [(n, v)]
  | _ => []

structure RunState where
  queue : List String
  processed : List (String × String)
  successful : Bool
  log : List (String × StepOutcome)
deriving DecidableEq, Repr

/-- install_command's queue loop: pop the front, process it, extend the
queue with the outcome's dependency specs, and continue.  The fuel bounds
the iterations of the model (the Python loop itself need not terminate,
e.g. on a cached package whose manifest lists itself). -/
def runQueue (env : Env) : Nat → RunState → RunState
  | 0, st => st
  | fuel + 1, st =>
    match st.queue with
    | [] => st
    | t :: rest =>
      let o := processTarget env st.processed t
      runQueue env fuel
        ⟨rest ++ stepEnqueues o, st.processed ++ stepAddsProcessed o,
          st.successful && !stepFails o, st.log ++ [(t, o)]⟩

/-- install_command entry: the queue is seeded with the explicit targets
followed by every subdirectory of src/. -/
def install_command (env : Env) (targets : List String) (fuel : Nat) :
    RunState :=
  runQueue env fuel ⟨targets ++ env.srcList, [], true, []⟩

/-
ConsistencyValidator model (src/commands/index.py).  Version strings of
phase 1 travel as a pair of the raw string (str() already applied, "N/A"
for an absent key) and its packaging Version parse result, since the code
first filters on the literal strings "ERROR"/"N/A" and later re-parses the
stored string.
-/
structure VerStr where
  s : String
  parsedVer : Option Version
deriving DecidableEq, Repr

/-- One requirement string as packaging.requirements.Requirement parses it:
a name plus a specifier set. -/
structure Reqmt where
  name : String
  specifier : List Clause
deriving DecidableEq, Repr

/-- A raw dependency token together with its Requirement parse result
(none models the InvalidSpecifier/parse exception). -/
structure DepToken where
  raw : String
  parsedReq : Option Reqmt
deriving DecidableEq, Repr

/-- A release.yaml as yaml.safe_load returns it to parse_package_yaml:
a parse error, a non-dict document, or a dict with an optional version
scalar and an optional dependencies list. -/
inductive YamlDoc where
  | parseFail
  | notDict
  | doc (version : Option VerStr) (dependencies : Option (List DepToken))
deriving DecidableEq, Repr

structure Phase1Row where
  name : String
  version : VerStr
  deps : Option (List DepToken)
deriving DecidableEq, Repr

/-- parse_package_yaml (index.py lines 395-426): YAML or read errors and
non-dict documents yield the version string "ERROR" (their message list is
not modelled); otherwise the version is str(data.get("version", "N/A")) and
the raw dependencies ride along.  "ERROR" and "N/A" are not parseable
versions, so their parse result is none. -/
def parse_package_yaml (pkg_name : String) (y : YamlDoc) : Phase1Row :=
  match y with
  | .parseFail => ⟨pkg_name, ⟨"ERROR", none⟩, none⟩
  | .notDict => ⟨pkg_name, ⟨"ERROR", none⟩, none⟩
  | .doc v d => ⟨pkg_name, v.getD ⟨"N/A", none⟩, d⟩

/-- The PackageDb barrier (index.py lines 310-316): keep only rows whose
version string is neither "ERROR" nor "N/A"; a later row with the same name
overwrites an earlier one (dict assignment), which prepending plus
first-match lookup reproduces. -/
def build_package_db (rows : List Phase1Row) : List (String × VerStr) :=
  rows.foldl
    (fun db r =>
      if r.version.s ≠ "ERROR" ∧ r.version.s ≠ "N/A" then
        (r.name, r.version) :: db
      else db)
    []

/-- The per-dependency statuses of process_and_color_deps (index.py lines
503-554), stripped of their ANSI rendering.  invalidDepVersion is the
"(Dep has Invalid Ver: ...)" row: the dependency exists in PackageDb but
its recorded version string is not a parseable version.  (The final
catch-all "Check Error" arm is unreachable for the modelled inputs.) -/
inductive DepStatus where
  | invalidSpec
  | missing
  | wrongVersion
  | ok
  | invalidDepVersion
deriving DecidableEq, Repr

/-- Classification of one dependency token against PackageDb, in the exact
order of the code: Requirement parse failure, then db membership, then
Version(actual) parse, then the specifier-containment check. -/
def process_dep (db : List (String × VerStr)) (tok : DepToken) : DepStatus :=
  match tok.parsedReq with
  | none => .invalidSpec
  | some req =>
    match db.lookup req.name with
    | none => .missing
    | some vs =>
      match vs.parsedVer with
      | none => .invalidDepVersion
      | some v =>
        if containsVer req.specifier v then .ok else .wrongVersion

/-
BuildGraphBuilder model (src/commands/setup.py lines 608-655).  The graph
is the dict {project -> dependency list} in insertion order; keys is the
mutable project-name list being sorted.
-/

/-- list.insert(i, x): past-the-end indices append (as Python does). -/
def insertAt : Nat → String → List String → List String
  | 0, a, l => a :: l
  | _ + 1, a, [] => [a]
  | n + 1, a, x :: xs => x :: insertAt n a xs

/-- move_key_before (setup.py lines 608-628): when `key` currently sits
before `dep`, remove `key` and re-insert it at `dep`'s old index — which,
after the removal shifted `dep` left by one, places `key` directly after
`dep`.  Indexing mirrors list.index on the call-site invariant that both
names occur in the list. -/
def move_key_before (dep : String) (keys : List String) (key : String) :
    List String :=
  let dep_index := keys.indexOf dep
  let key_index := keys.indexOf key
  if dep_index < key_index then keys
  else insertAt dep_index key (keys.erase key)

/-- One full pass of topological_sort's nested loops: for every key of the
original key list, for every dependency of that key that is itself a graph
key, bubble the key behind its dependency. -/
def sortPass (graph : List (String × List String)) (original : List String)
    (keys0 : List String) : List String :=
  original.foldl
    (fun ks key =>
      ((graph.lookup key).getD []).foldl
        (fun ks2 dep =>
          if (graph.lookup dep).isSome then move_key_before dep ks2 key
          else ks2)
        ks)
    keys0

/-- The `for i in range(20)` loop of topological_sort: run a pass; return
the keys when the pass changed nothing; on the 20th changed pass, abort
(sys.exit(1) after printing "Cyclic dependency detected"), modelled as
none.  The counter argument is the number of remaining iterations. -/
def sortGo (graph : List (String × List String)) (original : List String) :
    Nat → List String → Option (List String)
  | 0, _ => none
  | n + 1, keys =>
    let k2 := sortPass graph original keys
    if k2 = keys then some k2
    else
      match n with
      | 0 => none
      | m + 1 => sortGo graph original (m + 1) k2

/-- topological_sort (setup.py lines 631-655): twenty bubbling passes over
a copy of the incoming key order. -/
def topological_sort (graph : List (String × List String))
    (keys : List String) : Option (List String) :=
  sortGo graph keys 20 keys

/-- Whether an order places every key after all of its in-graph
dependencies — the contract a topological order must satisfy. -/
def topoOrdered (graph : List (String × List String))
    (keys : List String) : Bool :=
  keys.all fun k =>
    ((graph.lookup k).getD []).all fun d =>
      !(graph.lookup d).isSome || decide (keys.indexOf d < keys.indexOf k)

/-- An entry all of whose dependencies lie outside the remaining graph. -/
def removableEntry (g : List (String × List String))
    (p : String × List String) : Bool :=
  p.2.all fun d => (g.lookup d).isNone

/-- Kahn-style elimination: repeatedly delete an entry with no remaining
in-graph dependency; success on emptiness.  This decides acyclicity of the
dependency graph (the claim-side notion; independent of the sort above). -/
def elimGo : Nat → List (String × List String) → Bool
  | 0, g => g.isEmpty
  | n + 1, g =>
    if g.isEmpty then true
    else
      match g.find? (removableEntry g) with
      | none => false
      | some p => elimGo n (g.eraseP (fun q => q.1 == p.1))

def elimAcyclic (g : List (String × List String)) : Bool :=
  elimGo g.length g

/-- The three-unit chain of the spec's topological-order example:
A depends on B, B depends on C. -/
def chain3 : List (String × List String) :=
  [("A", ["B"]), ("B", ["C"]), ("C", [])]

/-- A 21-unit dependency chain p01 -> p02 -> ... -> p21, discovered in the
worst order (each unit before the unit it depends on). -/
def chain21 : List (String × List String) :=
  [("p01", ["p02"]), ("p02", ["p03"]), ("p03", ["p04"]), ("p04", ["p05"]),
   ("p05", ["p06"]), ("p06", ["p07"]), ("p07", ["p08"]), ("p08", ["p09"]),
   ("p09", ["p10"]), ("p10", ["p11"]), ("p11", ["p12"]), ("p12", ["p13"]),
   ("p13", ["p14"]), ("p14", ["p15"]), ("p15", ["p16"]), ("p16", ["p17"]),
   ("p17", ["p18"]), ("p18", ["p19"]), ("p19", ["p20"]), ("p20", ["p21"]),
   ("p21", [])]

def chain21Keys : List String := chain21.map (fun p => p.1)

/-- The two-unit cycle of the spec's cycle-detection example. -/
def cyc2 : List (String × List String) := [("A", ["B"]), ("B", ["A"])]

/-
Claims C5 and C10: the consistency validator.
-/

/-- Phase-1 row of a package x whose manifest declares an unparsable
version string "abc" (present in PackageDb, Version("abc") raises). -/
def rowInvalidVer : Phase1Row :=
  parse_package_yaml "x" (.doc (some ⟨"abc", none⟩) (some []))

def dbInvalidVer : List (String × VerStr) := build_package_db [rowInvalidVer]

/-- The dependency token "x>=1.0.0" as Requirement parses it. -/
def tokGeX : DepToken :=
  ⟨"x>=1.0.0", some ⟨"x", [⟨.ge, ⟨[1, 0, 0], none⟩⟩]⟩⟩

/-- Phase-1 row of a package x at pre-release version 1.0.0a1. -/
def rowPreVer : Phase1Row :=
  parse_package_yaml "x" (.doc (some ⟨"1.0.0a1", some ⟨[1, 0, 0], some (0, 1)⟩⟩) none)

def dbPreVer : List (String × VerStr) := build_package_db [rowPreVer]

/-- The bare dependency token "x" (empty specifier set). -/
def tokBareX : DepToken := ⟨"x", some ⟨"x", []⟩⟩

/-
Claim C2: best-release selection.
-/

/-- A release qualifies for selection at version v: its tag is present and
non-empty, it is not excluded by the prerelease gate (flagged prereleases
need a devel user), its tag parses to v, and the specifier set contains
v. -/
def Qual (spec : List Clause) (devel : Bool) (r : Release) (v : Version) : Prop :=
  (∃ t, r.tag = some t ∧ t ≠ "") ∧ (r.prerelease = true → devel = true) ∧
    r.tagParsed = some v ∧ containsVer spec v = true

/-
Claim C8: the cache/local-source validity rule.
-/

/-- The validity rule exactly as the claim words it: valid when either no
manifest exists and the constraint is unconstrained, or the manifest
declares a version that satisfies the constraint. -/
def claimC8Valid (dir : Option ReleaseDir) (spec_str : String)
    (spec : List Clause) : Bool :=
  match dir with
  | none => false
  | some d =>
    match d.manifest with
    | none => spec_str = ""
    | some ry =>
      match ry.version with
      | .parsed v => containsVer spec v
      | _ => false

/-
Claims C1, C6, C7, C9: the resolution step.  Concrete environments for the
counterexamples and witnesses.
-/

/-- An empty workspace: nothing cached, no local sources, no repositories. -/
def envBase : Env :=
  { precompiled := fun _ => none
    localSrc := fun _ => none
    srcList := []
    repos := fun _ => .noRepo
    releases := fun _ _ => none
    downloadOk := fun _ => true
    assetDeps := fun _ => []
    osType := "linux", osVersion := "24.04", arch := "x86_64"
    buildType := "release", userDevel := false }

/-- Package a precompiled at 1.0.0 with two dependency specs. -/
def envCache : Env :=
  { envBase with
    precompiled := fun n =>
      if n = "a" then some ⟨some ⟨.parsed ⟨[1, 0, 0], none⟩, ["b", "c>=0.2.0"]⟩⟩
      else none }

/-- Package x present in local source at version 1.0.0. -/
def envC6 : Env :=
  { envBase with
    localSrc := fun n =>
      if n = "x" then some ⟨some ⟨.parsed ⟨[1, 0, 0], none⟩, []⟩⟩ else none }

/-- Package x present in local source with an unparsable manifest version. -/
def envC9 : Env :=
  { envBase with
    localSrc := fun n =>
      if n = "x" then some ⟨some ⟨.invalid, []⟩⟩ else none }

/-- Package x precompiled with an unparsable manifest version. -/
def envC9cache : Env :=
  { envBase with
    precompiled := fun n =>
      if n = "x" then some ⟨some ⟨.invalid, []⟩⟩ else none }

/-- Package r available remotely at 1.2.0 with a matching variant asset. -/
def envRemote : Env :=
  { envBase with
    repos := fun n => if n = "r" then .repo "own" "rep" else .noRepo
    releases := fun o p =>
      if o = "own" ∧ p = "rep" then
        some [⟨some "1.2.0", some ⟨[1, 2, 0], none⟩, false,
          ["r-linux-24.04-x86_64-release-1.2.0.zip"]⟩]
      else none }

/-- Package r registered remotely, but its release list is empty. -/
def envNoRel : Env :=
  { envBase with
    repos := fun n => if n = "r" then .repo "own" "rep" else .noRepo
    releases := fun o p => if o = "own" ∧ p = "rep" then some [] else none }

/-- The spec's end-to-end candidates: B released at 1.0.0 and 1.1.0. -/
def relB10 : Release := ⟨some "1.0.0", some ⟨[1, 0, 0], none⟩, false, []⟩

def relB11 : Release := ⟨some "1.1.0", some ⟨[1, 1, 0], none⟩, false, []⟩

def specGe1 : List Clause := [⟨.ge, ⟨[1, 0, 0], none⟩⟩]

/-
Claims C3 and C4: the topological sort.
-/

set_option maxRecDepth 20000

theorem lexCmp_self (l : List Nat) : lexCmp l l = .eq := by
  induction l with
  | nil => rfl
  | cons a as ih => simp [lexCmp, ih]

theorem lexCmp_eq : ∀ a b : List Nat, lexCmp a b = .eq → a = b := by
  intro a
  induction a with
  | nil => intro b h; cases b with
    | nil => rfl
    | cons x xs => simp [lexCmp] at h
  | cons a as ih =>
    intro b h
    cases b with
    | nil => simp [lexCmp] at h
    | cons x xs =>
      simp only [lexCmp] at h
      by_cases h1 : a < x
      · simp [h1] at h
      · by_cases h2 : x < a
        · simp [h1, h2] at h
        · simp [h1, h2] at h
          have : a = x := by omega
          rw [this, ih xs h]

theorem lexCmp_gt_swap : ∀ a b : List Nat, lexCmp a b = .gt → lexCmp b a = .lt := by
  intro a
  induction a with
  | nil => intro b h; cases b <;> simp [lexCmp] at h ⊢
  | cons a as ih =>
    intro b h
    cases b with
    | nil => simp [lexCmp]
    | cons x xs =>
      simp only [lexCmp] at h ⊢
      by_cases h1 : a < x
      · simp [h1] at h
      · by_cases h2 : x < a
        · simp [h1, h2] at h ⊢
        · simp [h1, h2] at h ⊢
          exact ih xs h

theorem lexCmp_lt_trans :
    ∀ a b c : List Nat, lexCmp a b = .lt → lexCmp b c = .lt → lexCmp a c = .lt := by
  intro a
  induction a with
  | nil =>
    intro b c hab hbc
    cases b with
    | nil => simp [lexCmp] at hab
    | cons x xs =>
      cases c with
      | nil => simp [lexCmp] at hbc
      | cons y ys => simp [lexCmp]
  | cons a as ih =>
    intro b c hab hbc
    cases b with
    | nil => simp [lexCmp] at hab
    | cons x xs =>
      cases c with
      | nil => simp [lexCmp] at hbc
      | cons y ys =>
        simp only [lexCmp] at hab hbc ⊢
        by_cases h1 : a < x
        · by_cases h3 : x < y
          · have : a < y := by omega
            simp [this]
          · by_cases h4 : y < x
            · simp [h3, h4] at hbc
            · have hxy : x = y := by omega
              have : a < y := by omega
              simp [this]
        · by_cases h2 : x < a
          · simp [h1, h2] at hab
          · have hax : a = x := by omega
            by_cases h3 : x < y
            · have : a < y := by omega
              simp [this]
            · by_cases h4 : y < x
              · simp [h3, h4] at hbc
              · have h5 : ¬ a < y := by omega
                have h6 : ¬ y < a := by omega
                simp only [if_neg h1, if_neg h2] at hab
                simp only [if_neg h3, if_neg h4] at hbc
                simp only [if_neg h5, if_neg h6]
                exact ih xs ys hab hbc

theorem padTo_length (n : Nat) (l : List Nat) (h : l.length ≤ n) :
    (padTo n l).length = n := by
  simp [padTo]; omega

theorem padTo_add (m n : Nat) (l : List Nat) (h1 : l.length ≤ m) (h2 : m ≤ n) :
    padTo n l = padTo m l ++ List.replicate (n - m) 0 := by
  simp only [padTo, List.append_assoc]
  have : n - l.length = (m - l.length) + (n - m) := by omega
  rw [this, List.replicate_add]

theorem lexCmp_append_zeros :
    ∀ (a b : List Nat) (k : Nat), a.length = b.length →
      lexCmp (a ++ List.replicate k 0) (b ++ List.replicate k 0) = lexCmp a b := by
  intro a
  induction a with
  | nil =>
    intro b k h
    cases b with
    | nil =>
      simp only [List.nil_append, lexCmp]
      induction k with
      | zero => rfl
      | succ k ihk => simpa [List.replicate, lexCmp] using ihk
    | cons x xs => simp at h
  | cons a as ih =>
    intro b k h
    cases b with
    | nil => simp at h
    | cons x xs =>
      simp only [List.cons_append, lexCmp]
      by_cases h1 : a < x
      · simp [h1]
      · by_cases h2 : x < a
        · simp [h1, h2]
        · simp only [List.length_cons] at h
          simp [h1, h2, ih xs k (by omega)]

theorem relCmp_pad (a b : List Nat) (n : Nat) (h : max a.length b.length ≤ n) :
    lexCmp (padTo n a) (padTo n b) = relCmp a b := by
  set m := max a.length b.length with hm
  have ha : a.length ≤ m := by omega
  have hb : b.length ≤ m := by omega
  rw [padTo_add m n a ha h, padTo_add m n b hb h]
  have hlen : (padTo m a).length = (padTo m b).length := by
    rw [padTo_length m a ha, padTo_length m b hb]
  rw [lexCmp_append_zeros _ _ _ hlen]
  rfl

theorem relCmp_self (a : List Nat) : relCmp a a = .eq := by
  simp [relCmp, lexCmp_self]

theorem preCmp_self (p : Option (Nat × Nat)) : preCmp p p = .eq := by
  cases p with
  | none => rfl
  | some q => simp [preCmp]

theorem preCmp_pair (a b : Nat × Nat) :
    preCmp (some a) (some b) =
      (if a.1 < b.1 then Ordering.lt else if b.1 < a.1 then Ordering.gt
       else if a.2 < b.2 then Ordering.lt else if b.2 < a.2 then Ordering.gt
       else Ordering.eq) := rfl

theorem preCmp_eq : ∀ p q, preCmp p q = .eq → p = q := by
  intro p q h
  match p, q with
  | none, none => rfl
  | some a, none => simp [preCmp] at h
  | none, some b => simp [preCmp] at h
  | some a, some b =>
    rw [preCmp_pair] at h
    split at h
    · exact absurd h (by simp)
    · split at h
      · exact absurd h (by simp)
      · split at h
        · exact absurd h (by simp)
        · split at h
          · exact absurd h (by simp)
          · have h1 : a.1 = b.1 := by omega
            have h2 : a.2 = b.2 := by omega
            have : a = b := Prod.ext h1 h2
            rw [this]

theorem preCmp_gt_swap : ∀ p q, preCmp p q = .gt → preCmp q p = .lt := by
  intro p q h
  match p, q with
  | none, none => simp [preCmp] at h
  | some a, none => simp [preCmp] at h
  | none, some b => simp [preCmp]
  | some a, some b =>
    rw [preCmp_pair] at h
    rw [preCmp_pair]
    split at h
    · exact absurd h (by simp)
    · rename_i h1
      split at h
      · rename_i h2
        simp [h2]
      · rename_i h2
        split at h
        · exact absurd h (by simp)
        · rename_i h3
          split at h
          · rename_i h4
            have h5 : ¬ b.1 < a.1 := h2
            have h6 : ¬ a.1 < b.1 := h1
            simp only [if_neg h6, if_neg h5, if_pos h4]
          · exact absurd h (by simp)

theorem preCmp_le_trans :
    ∀ p q r, preCmp p q ≠ .gt → preCmp q r ≠ .gt → preCmp p r ≠ .gt := by
  intro p q r hpq hqr
  match p, q, r with
  | none, none, none => simp [preCmp]
  | none, none, some c => simp [preCmp] at hqr
  | none, some b, _ => simp [preCmp] at hpq
  | some a, none, none => simp [preCmp]
  | some a, none, some c => simp [preCmp] at hqr
  | some a, some b, none => simp [preCmp]
  | some a, some b, some c =>
    rw [preCmp_pair] at hpq hqr ⊢
    have hab : a.1 < b.1 ∨ (a.1 = b.1 ∧ (a.2 < b.2 ∨ a.2 = b.2)) := by
      by_cases h1 : a.1 < b.1
      · exact Or.inl h1
      · by_cases h2 : b.1 < a.1
        · rw [if_neg h1, if_pos h2] at hpq; exact absurd rfl hpq
        · by_cases h3 : a.2 < b.2
          · exact Or.inr ⟨by omega, Or.inl h3⟩
          · by_cases h4 : b.2 < a.2
            · rw [if_neg h1, if_neg h2, if_neg h3, if_pos h4] at hpq
              exact absurd rfl hpq
            · exact Or.inr ⟨by omega, Or.inr (by omega)⟩
    have hbc : b.1 < c.1 ∨ (b.1 = c.1 ∧ (b.2 < c.2 ∨ b.2 = c.2)) := by
      by_cases h1 : b.1 < c.1
      · exact Or.inl h1
      · by_cases h2 : c.1 < b.1
        · rw [if_neg h1, if_pos h2] at hqr; exact absurd rfl hqr
        · by_cases h3 : b.2 < c.2
          · exact Or.inr ⟨by omega, Or.inl h3⟩
          · by_cases h4 : c.2 < b.2
            · rw [if_neg h1, if_neg h2, if_neg h3, if_pos h4] at hqr
              exact absurd rfl hqr
            · exact Or.inr ⟨by omega, Or.inr (by omega)⟩
    have hac : a.1 < c.1 ∨ (a.1 = c.1 ∧ (a.2 < c.2 ∨ a.2 = c.2)) := by
      rcases hab with h | ⟨h, h2⟩ <;> rcases hbc with g | ⟨g, g2⟩
      · exact Or.inl (by omega)
      · exact Or.inl (by omega)
      · exact Or.inl (by omega)
      · rcases h2 with h2 | h2 <;> rcases g2 with g2 | g2
        · exact Or.inr ⟨by omega, Or.inl (by omega)⟩
        · exact Or.inr ⟨by omega, Or.inl (by omega)⟩
        · exact Or.inr ⟨by omega, Or.inl (by omega)⟩
        · exact Or.inr ⟨by omega, Or.inr (by omega)⟩
    rcases hac with h | ⟨h, h2⟩
    · rw [if_pos h]; simp
    · rw [if_neg (by omega), if_neg (by omega)]
      rcases h2 with h2 | h2
      · rw [if_pos h2]; simp
      · rw [if_neg (by omega), if_neg (by omega)]; simp

theorem verLE_refl (v : Version) : verLE v v = true := by
  simp [verLE, verCmp, relCmp_self, preCmp_self]

theorem verLE_iff_ne_gt (v w : Version) : verLE v w = true ↔ verCmp v w ≠ .gt := by
  unfold verLE
  rcases h : verCmp v w <;> simp [h]

theorem flagNeGt (o : Ordering)
    (h : (match o with | Ordering.gt => false | _ => true) = true) : o ≠ .gt := by
  cases o <;> simp_all

theorem verLE_total (v w : Version) : verLE v w = true ∨ verLE w v = true := by
  rcases h2 : verCmp v w with h | h | h
  · left; simp [verLE, h2]
  · left; simp [verLE, h2]
  · right
    have hgt := h2
    simp only [verCmp] at hgt
    rcases hrel : relCmp v.release w.release with h1 | h1 | h1 <;>
      simp [hrel] at hgt
    · -- release parts equal, pre part gt
      have hpad : padTo (max v.release.length w.release.length) v.release
          = padTo (max v.release.length w.release.length) w.release :=
        lexCmp_eq _ _ hrel
      have hsw : relCmp w.release v.release = .eq := by
        have := relCmp_pad w.release v.release
          (max v.release.length w.release.length) (by omega)
        rw [← this, ← hpad, lexCmp_self]
      simp [verLE, verCmp, hsw, preCmp_gt_swap _ _ hgt]
    · -- release part gt
      have hsw : relCmp w.release v.release = .lt := by
        have h1 := relCmp_pad v.release w.release
          (max w.release.length v.release.length) (by omega)
        have h2 := relCmp_pad w.release v.release
          (max w.release.length v.release.length) (by omega)
        rw [← h2]
        rw [← h1] at hrel
        exact lexCmp_gt_swap _ _ hrel
      simp [verLE, verCmp, hsw]

theorem verLE_trans (u v w : Version) (h1 : verLE u v = true) (h2 : verLE v w = true) :
    verLE u w = true := by
  classical
  set N := max (max u.release.length v.release.length) w.release.length with hN
  have huv := relCmp_pad u.release v.release N (by omega)
  have hvw := relCmp_pad v.release w.release N (by omega)
  have huw := relCmp_pad u.release w.release N (by omega)
  simp only [verLE, verCmp] at h1 h2 ⊢
  rcases hab : relCmp u.release v.release with hx | hx | hx <;> simp [hab] at h1
  all_goals rcases hbc : relCmp v.release w.release with hy | hy | hy <;>
    simp [hbc] at h2
  -- case lt lt
  · have : lexCmp (padTo N u.release) (padTo N w.release) = .lt := by
      apply lexCmp_lt_trans _ (padTo N v.release)
      · rw [huv]; exact hab
      · rw [hvw]; exact hbc
    rw [huw] at this
    simp [this]
  -- case lt eq
  · have heq : padTo N v.release = padTo N w.release := by
      apply lexCmp_eq; rw [hvw]; exact hbc
    have : lexCmp (padTo N u.release) (padTo N w.release) = .lt := by
      rw [← heq, huv]; exact hab
    rw [huw] at this
    simp [this]
  -- case eq lt
  · have heq : padTo N u.release = padTo N v.release := by
      apply lexCmp_eq; rw [huv]; exact hab
    have : lexCmp (padTo N u.release) (padTo N w.release) = .lt := by
      rw [heq, hvw]; exact hbc
    rw [huw] at this
    simp [this]
  -- case eq eq
  · have heq1 : padTo N u.release = padTo N v.release := by
      apply lexCmp_eq; rw [huv]; exact hab
    have heq2 : padTo N v.release = padTo N w.release := by
      apply lexCmp_eq; rw [hvw]; exact hbc
    have : lexCmp (padTo N u.release) (padTo N w.release) = .eq := by
      rw [heq1, heq2, lexCmp_self]
    rw [huw] at this
    simp only [this]
    have hpre := preCmp_le_trans u.pre v.pre w.pre (flagNeGt _ h1) (flagNeGt _ h2)
    rcases h3 : preCmp u.pre w.pre <;> simp [h3] at hpre ⊢

theorem lexCmp_zeros :
    ∀ (n : Nat) (l : List Nat), n ≤ l.length → lexCmp (List.replicate n 0) l ≠ .gt := by
  intro n
  induction n with
  | zero =>
    intro l _
    cases l <;> simp [lexCmp, List.replicate]
  | succ n ih =>
    intro l h
    cases l with
    | nil => simp at h
    | cons x xs =>
      simp only [List.replicate, lexCmp]
      by_cases h1 : 0 < x
      · simp [h1]
      · have : x = 0 := by omega
        simp [this]
        exact ih xs (by simpa using h)

/-- Any modelled version without a pre-release part is at least 0.0.0 — the
starting value of install_command's best_version accumulator. -/
theorem verLE_zero (v : Version) (h : v.pre = none) :
    verLE ⟨[0, 0, 0], none⟩ v = true := by
  have h3 : ([0, 0, 0] : List Nat).length = 3 := rfl
  set N := max ([0, 0, 0] : List Nat).length v.release.length with hN
  have hzero : padTo N [0, 0, 0] = List.replicate N 0 := by
    simp only [padTo, h3]
    have : ([0, 0, 0] : List Nat) = List.replicate 3 0 := rfl
    rw [this, ← List.replicate_add]
    congr 1
    omega
  have hpad := relCmp_pad [0, 0, 0] v.release N (by omega)
  have hlen : N ≤ (padTo N v.release).length := by
    rw [padTo_length N v.release (by omega)]
  have hne := lexCmp_zeros N (padTo N v.release) hlen
  rw [hzero] at hpad
  simp only [verLE, verCmp, h]
  rcases hrel : relCmp [0, 0, 0] v.release with h1 | h1 | h1
  · simp
  · simp [preCmp]
  · rw [← hpad] at hrel
    exact absurd hrel hne

/-- Whatever topological_sort returns is a fixpoint of the bubbling pass:
the loop only returns when a whole pass left the key list unchanged. -/
theorem sortGo_fix (g : List (String × List String)) (orig : List String) :
    ∀ n keys res, sortGo g orig n keys = some res → sortPass g orig res = res := by
  intro n
  induction n with
  | zero =>
    intro keys res h
    simp [sortGo] at h
  | succ n ih =>
    intro keys res h
    rw [sortGo.eq_def] at h
    simp only at h
    by_cases hc : sortPass g orig keys = keys
    · rw [if_pos hc] at h
      have hres : res = sortPass g orig keys := by
        cases h
        rfl
      rw [hres, hc, hc]
    · rw [if_neg hc] at h
      cases n with
      | zero => simp at h
      | succ m => exact ih _ _ h

/-- C3, counterexample to the claim as stated: the 21-unit acyclic chain in
worst discovery order exhausts the 20-pass ceiling, and topological_sort
aborts the run as a cyclic dependency instead of returning an order. -/
theorem C3_acyclic_chain_rejected :
    elimAcyclic chain21 = true ∧
      topological_sort chain21 chain21Keys = none := by
  decide

/-- C3, amended: the sort is a deterministic function of graph and
discovery order; any order it returns is a fixpoint of the bubbling pass
(every scheduled move already places the key after its dependency); and on
the spec's example chain A->B->C every one of the six discovery orders
yields the order C, B, A.  The unrestricted claim fails: an acyclic graph
can need more than the 20 allowed passes (C3_acyclic_chain_rejected). -/
theorem C3_sort_contract :
    (∀ (g : List (String × List String)) (keys res : List String),
        topological_sort g keys = some res → sortPass g keys res = res) ∧
      ((topological_sort chain3 ["A", "B", "C"] = some ["C", "B", "A"]) ∧
       (topological_sort chain3 ["A", "C", "B"] = some ["C", "B", "A"]) ∧
       (topological_sort chain3 ["B", "A", "C"] = some ["C", "B", "A"]) ∧
       (topological_sort chain3 ["B", "C", "A"] = some ["C", "B", "A"]) ∧
       (topological_sort chain3 ["C", "A", "B"] = some ["C", "B", "A"]) ∧
       (topological_sort chain3 ["C", "B", "A"] = some ["C", "B", "A"])) := by
  constructor
  · intro g keys res h
    exact sortGo_fix g keys 20 keys res h
  · decide

theorem C3_sort_contract_witness :
    sortPass chain3 ["A", "B", "C"] ["C", "B", "A"] = ["C", "B", "A"] :=
  C3_sort_contract.1 chain3 ["A", "B", "C"] ["C", "B", "A"] (by decide)

/-- C4: on the cyclic graph A->B->A the sort does NOT abort: the two moves
of a single pass cancel each other, the pass is a no-op on the list, and
topological_sort returns the order [A, B] — which is not a topological
order — with no CyclicDependency error.  The graph is indeed cyclic
(Kahn elimination fails). -/
theorem C4_cycle_undetected :
    elimAcyclic cyc2 = false ∧
      topological_sort cyc2 ["A", "B"] = some ["A", "B"] ∧
      topoOrdered cyc2 ["A", "B"] = false := by
  decide

/-- C5, counterexample to the claim as stated.  First: a dependency naming
a package that is present in PackageDb but whose recorded version string is
unparsable is classified with a fifth status, "(Dep has Invalid Ver)" —
none of the claim's four.  Second: the claim's "empty constraint matching
any version" also fails — an empty specifier set refuses a pre-release
recorded version, so the bare spec "x" against x@1.0.0a1 is classified
Wrong Version, not Ok. -/
theorem C5_fifth_status :
    (process_dep dbInvalidVer tokGeX = .invalidDepVersion ∧
      process_dep dbInvalidVer tokGeX ∉
        [DepStatus.invalidSpec, DepStatus.missing,
         DepStatus.wrongVersion, DepStatus.ok]) ∧
      process_dep dbPreVer tokBareX = .wrongVersion := by
  decide

/-- C5, amended: the classification of one dependency spec, in source
order — InvalidSpec exactly when the requirement string does not parse;
otherwise Missing exactly when the name is absent from PackageDb; otherwise
the distinct invalid-dep-version status exactly when the recorded version
string of the found package is unparsable; otherwise Ok exactly when the
specifier set contains the recorded version (an empty set containing every
non-pre-release version) and WrongVersion exactly otherwise. -/
theorem C5_classification (db : List (String × VerStr)) (tok : DepToken) :
    (process_dep db tok = .invalidSpec ↔ tok.parsedReq = none) ∧
    (∀ req, tok.parsedReq = some req →
      ((process_dep db tok = .missing ↔ db.lookup req.name = none) ∧
       (∀ vs, db.lookup req.name = some vs →
         ((process_dep db tok = .invalidDepVersion ↔ vs.parsedVer = none) ∧
          (∀ v, vs.parsedVer = some v →
            ((process_dep db tok = .ok ↔ containsVer req.specifier v = true) ∧
             (process_dep db tok = .wrongVersion ↔
               containsVer req.specifier v = false))))))) := by
  rcases htok : tok.parsedReq with _ | req
  · refine ⟨by simp [process_dep, htok], ?_⟩
    intro req hreq
    exact Option.noConfusion hreq
  · have hne : ∀ req2, (some req : Option Reqmt) = some req2 → req2 = req := by
      intro req2 h2
      cases h2
      rfl
    rcases hdb : db.lookup req.name with _ | vs
    · refine ⟨by simp [process_dep, htok, hdb], ?_⟩
      intro req2 hreq2
      cases hne req2 hreq2
      refine ⟨by simp [process_dep, htok, hdb], ?_⟩
      intro vs hvs
      rw [hdb] at hvs
      exact absurd hvs (by simp)
    · rcases hv : vs.parsedVer with _ | v
      · refine ⟨by simp [process_dep, htok, hdb, hv], ?_⟩
        intro req2 hreq2
        cases hne req2 hreq2
        refine ⟨by simp [process_dep, htok, hdb, hv], ?_⟩
        intro vs2 hvs2
        rw [hdb] at hvs2
        cases hvs2
        refine ⟨by simp [process_dep, htok, hdb, hv], ?_⟩
        intro v hv2
        rw [hv] at hv2
        exact absurd hv2 (by simp)
      · by_cases hc : containsVer req.specifier v = true
        · refine ⟨by simp [process_dep, htok, hdb, hv, hc], ?_⟩
          intro req2 hreq2
          cases hne req2 hreq2
          refine ⟨by simp [process_dep, htok, hdb, hv, hc], ?_⟩
          intro vs2 hvs2
          rw [hdb] at hvs2
          cases hvs2
          refine ⟨by simp [process_dep, htok, hdb, hv, hc], ?_⟩
          intro v2 hv2
          rw [hv] at hv2
          cases hv2
          exact ⟨by simp [process_dep, htok, hdb, hv, hc],
            by simp [process_dep, htok, hdb, hv, hc]⟩
        · have hcf : containsVer req.specifier v = false :=
            Bool.eq_false_iff.mpr hc
          refine ⟨by simp [process_dep, htok, hdb, hv, hcf], ?_⟩
          intro req2 hreq2
          cases hne req2 hreq2
          refine ⟨by simp [process_dep, htok, hdb, hv, hcf], ?_⟩
          intro vs2 hvs2
          rw [hdb] at hvs2
          cases hvs2
          refine ⟨by simp [process_dep, htok, hdb, hv, hcf], ?_⟩
          intro v2 hv2
          rw [hv] at hv2
          cases hv2
          exact ⟨by simp [process_dep, htok, hdb, hv, hcf],
            by simp [process_dep, htok, hdb, hv, hcf]⟩

/-- C5 amended-claim witness at a concrete database and token. -/
theorem C5_classification_witness :
    process_dep dbPreVer tokGeX = .wrongVersion ↔
      containsVer [⟨Cop.ge, ⟨[1, 0, 0], none⟩⟩]
        (⟨[1, 0, 0], some (0, 1)⟩ : Version) = false := by
  have h := (((C5_classification dbPreVer tokGeX).2
      ⟨"x", [⟨.ge, ⟨[1, 0, 0], none⟩⟩]⟩ (by decide)).2
      ⟨"1.0.0a1", some ⟨[1, 0, 0], some (0, 1)⟩⟩ (by decide)).2
      ⟨[1, 0, 0], some (0, 1)⟩ (by decide)
  exact h.2

/-- Helper for C10: folding rows into PackageDb never adds an entry for a
name all of whose rows carry version string "N/A" or "ERROR". -/
theorem build_db_excludes :
    ∀ (rows : List Phase1Row) (acc : List (String × VerStr)) (nm : String),
      acc.lookup nm = none →
      (∀ r ∈ rows, r.name = nm → (r.version.s = "N/A" ∨ r.version.s = "ERROR")) →
      (rows.foldl
        (fun db r =>
          if r.version.s ≠ "ERROR" ∧ r.version.s ≠ "N/A" then
            (r.name, r.version) :: db
          else db) acc).lookup nm = none := by
  intro rows
  induction rows with
  | nil => intro acc nm hacc _; simpa using hacc
  | cons r rs ih =>
    intro acc nm hacc hall
    simp only [List.foldl_cons]
    apply ih
    · by_cases hcond : r.version.s ≠ "ERROR" ∧ r.version.s ≠ "N/A"
      · rw [if_pos hcond]
        have hname : r.name ≠ nm := by
          intro heq
          rcases hall r (by simp) heq with h | h
          · exact hcond.2 h
          · exact hcond.1 h
        simp only [List.lookup]
        have : (nm == r.name) = false := by
          simp [BEq.beq]
          intro h
          exact hname h.symm
        rw [this]
        exact hacc
      · rw [if_neg hcond]
        exact hacc
    · intro r2 hr2 hnm
      exact hall r2 (by simp [hr2]) hnm

/-- C10: a manifest that parses to a dict without a version key is recorded
with the literal version string "N/A" (and no parseable version); any name
whose rows all carry "N/A" or "ERROR" is excluded from PackageDb; and every
dependency spec whose parsed name is absent from PackageDb is classified
Missing. -/
theorem C10_versionless_missing :
    (∀ (name : String) (deps : Option (List DepToken)),
        (parse_package_yaml name (.doc none deps)).version = ⟨"N/A", none⟩) ∧
    (∀ (rows : List Phase1Row) (nm : String),
        (∀ r ∈ rows, r.name = nm →
          (r.version.s = "N/A" ∨ r.version.s = "ERROR")) →
        (build_package_db rows).lookup nm = none) ∧
    (∀ (db : List (String × VerStr)) (tok : DepToken) (req : Reqmt),
        tok.parsedReq = some req → db.lookup req.name = none →
        process_dep db tok = .missing) := by
  refine ⟨fun name deps => rfl, ?_, ?_⟩
  · intro rows nm hall
    exact build_db_excludes rows [] nm rfl hall
  · intro db tok req hreq hdb
    simp [process_dep, hreq, hdb]

/-- C10 witness: a concrete versionless manifest for package y, a database
built from it, and the dependency "y>=1.0.0" classified Missing. -/
theorem C10_versionless_missing_witness :
    (parse_package_yaml "y" (.doc none (some []))).version = ⟨"N/A", none⟩ ∧
      (build_package_db [parse_package_yaml "y" (.doc none (some []))]).lookup
          "y" = none ∧
      process_dep (build_package_db [parse_package_yaml "y" (.doc none (some []))])
          ⟨"y>=1.0.0", some ⟨"y", [⟨.ge, ⟨[1, 0, 0], none⟩⟩]⟩⟩ = .missing := by
  refine ⟨C10_versionless_missing.1 "y" (some []), ?_, ?_⟩
  · exact C10_versionless_missing.2.1 _ "y" (by decide)
  · exact C10_versionless_missing.2.2 _ _ ⟨"y", [⟨.ge, ⟨[1, 0, 0], none⟩⟩]⟩
     rfl (C10_versionless_missing.2.1 _ "y" (by decide))

/-- When no clause of the set carries a pre-release version (true of every
set install_command can build), containment forces a non-pre-release
candidate. -/
theorem contains_pre_none (spec : List Clause)
    (hpre : ∀ c ∈ spec, c.ver.pre = none) (v : Version)
    (h : containsVer spec v = true) : v.pre = none := by
  unfold containsVer at h
  simp only [Bool.and_eq_true] at h
  have h1 := h.1
  have hap : specAllowsPre spec = false := by
    unfold specAllowsPre
    rw [List.any_eq_false]
    intro c hc
    rw [hpre c hc]
    simp
  rw [hap] at h1
  simp only [Bool.or_false] at h1
  exact Option.isNone_iff_eq_none.mp h1

/-- Each selection step either leaves the accumulator unchanged — and then
every version the release qualifies at is below the accumulator — or picks
the release at a qualifying version at least the accumulator. -/
theorem stepSel_cases (spec : List Clause) (devel : Bool)
    (acc : Option Release × Version) (r : Release) :
    (stepSel spec devel acc r = acc ∧
      ∀ v, Qual spec devel r v → verLE acc.2 v = false) ∨
    (∃ v, stepSel spec devel acc r = (some r, v) ∧ Qual spec devel r v ∧
      verLE acc.2 v = true) := by
  rcases htag : r.tag with _ | t
  · left
    refine ⟨by simp [stepSel, htag], ?_⟩
    intro v hq
    rcases hq.1 with ⟨t, ht, _⟩
    rw [htag] at ht
    exact Option.noConfusion ht
  · by_cases ht0 : t = ""
    · left
      refine ⟨by simp [stepSel, htag, ht0], ?_⟩
      intro v hq
      rcases hq.1 with ⟨t2, ht2, htne⟩
      rw [htag] at ht2
      have h2 := Option.some.inj ht2
      exact absurd (by rw [← h2]; exact ht0) htne
    · by_cases hpre : (r.prerelease && !devel) = true
      · left
        refine ⟨by simp [stepSel, htag, ht0, hpre], ?_⟩
        intro v hq
        have hb := hpre
        simp only [Bool.and_eq_true] at hb
        have hd : devel = false := by
          have := hb.2
          simp only [Bool.not_eq_true'] at this
          exact this
        have := hq.2.1 hb.1
        rw [hd] at this
        exact Bool.noConfusion this
      · rcases hparse : r.tagParsed with _ | v
        · left
          refine ⟨by simp [stepSel, htag, ht0, hpre, hparse], ?_⟩
          intro v hq
          have h2 := hq.2.2.1
          rw [hparse] at h2
          exact Option.noConfusion h2
        · by_cases hc : containsVer spec v = true
          · by_cases hle : verLE acc.2 v = true
            · right
              refine ⟨v, by simp [stepSel, htag, ht0, hpre, hparse, hc, hle], ?_, hle⟩
              refine ⟨⟨t, htag, ht0⟩, ?_, hparse, hc⟩
              intro hp
              by_contra hd
              have hd2 : devel = false := Bool.eq_false_iff.mpr hd
              apply hpre
              rw [hp, hd2]
              rfl
            · left
              have hlef : verLE acc.2 v = false := Bool.eq_false_iff.mpr hle
              refine ⟨by simp [stepSel, htag, ht0, hpre, hparse, hlef], ?_⟩
              intro v2 hq
              have h2 := hq.2.2.1
              rw [hparse] at h2
              have hv2 := Option.some.inj h2
              rw [← hv2]
              exact hlef
          · left
            have hcf : containsVer spec v = false := Bool.eq_false_iff.mpr hc
            refine ⟨by simp [stepSel, htag, ht0, hpre, hparse, hcf], ?_⟩
            intro v2 hq
            have h2 := hq.2.2.1
            rw [hparse] at h2
            have hv2 := Option.some.inj h2
            exfalso
            have hcv := hq.2.2.2
            rw [← hv2, hcf] at hcv
            exact Bool.noConfusion hcv

/-- Soundness of the whole selection fold: starting from an accumulator
that is either the initial (None, 0.0.0) or a previously qualifying pick,
the fold ends with no pick exactly when nothing in the list qualifies, and
otherwise ends with a qualifying pick at least every qualifying version in
the list. -/
theorem bestGo_sound (spec : List Clause) (devel : Bool)
    (hpre : ∀ c ∈ spec, c.ver.pre = none) :
    ∀ (rels : List Release) (acc : Option Release × Version),
      (acc.1 = none → acc.2 = ⟨[0, 0, 0], none⟩) →
      (∀ a0, acc.1 = some a0 → Qual spec devel a0 acc.2) →
      (((bestGo spec devel rels acc).1 = none →
          bestGo spec devel rels acc = acc ∧
            ∀ r ∈ rels, ∀ v, ¬ Qual spec devel r v) ∧
       (∀ r0, (bestGo spec devel rels acc).1 = some r0 →
          Qual spec devel r0 (bestGo spec devel rels acc).2 ∧
            verLE acc.2 (bestGo spec devel rels acc).2 = true ∧
            (∀ r ∈ rels, ∀ v, Qual spec devel r v →
              verLE v (bestGo spec devel rels acc).2 = true) ∧
            (acc.1 = some r0 ∨ r0 ∈ rels))) := by
  intro rels
  induction rels with
  | nil =>
    intro acc hnone hsome
    refine ⟨?_, ?_⟩
    · intro _
      exact ⟨rfl, by simp⟩
    · intro r0 h0
      exact ⟨hsome r0 h0, verLE_refl _, by simp, Or.inl h0⟩
  | cons r rs ih =>
    intro acc hnone hsome
    have hstep := stepSel_cases spec devel acc r
    rcases hstep with ⟨hs, hnf⟩ | ⟨v, hs, hq, hle⟩
    · -- the head release was not taken
      have hbg : bestGo spec devel (r :: rs) acc = bestGo spec devel rs acc := by
        show bestGo spec devel rs (stepSel spec devel acc r) = _
        rw [hs]
      have hih := ih acc hnone hsome
      rw [hbg]
      refine ⟨?_, ?_⟩
      · intro h0
        rcases hih.1 h0 with ⟨heq, hno⟩
        refine ⟨heq, ?_⟩
        intro r2 hr2 v hqv
        rcases List.mem_cons.mp hr2 with hr2 | hr2
        · -- head: a qualifying version would have fired from the base acc
          subst hr2
          have hlef := hnf v hqv
          have hacc1 : acc.1 = none := by
            rw [heq] at h0
            exact h0
          have hacc2 := hnone hacc1
          have hvp := contains_pre_none spec hpre v hqv.2.2.2
          have := verLE_zero v hvp
          rw [← hacc2] at this
          rw [this] at hlef
          exact Bool.noConfusion hlef
        · exact hno r2 hr2 v hqv
      · intro r0 h0
        rcases hih.2 r0 h0 with ⟨hq0, hle0, hmax, hmem⟩
        refine ⟨hq0, hle0, ?_, ?_⟩
        · intro r2 hr2 v hqv
          rcases List.mem_cons.mp hr2 with hr2 | hr2
          · subst hr2
            have hlef := hnf v hqv
            have hvacc : verLE v acc.2 = true := by
              rcases verLE_total acc.2 v with h | h
              · rw [h] at hlef
                exact Bool.noConfusion hlef
              · exact h
            exact verLE_trans v acc.2 _ hvacc hle0
          · exact hmax r2 hr2 v hqv
        · rcases hmem with hmem | hmem
          · exact Or.inl hmem
          · exact Or.inr (List.mem_cons.mpr (Or.inr hmem))
    · -- the head release was taken at version v
      have hbg : bestGo spec devel (r :: rs) acc =
          bestGo spec devel rs (some r, v) := by
        show bestGo spec devel rs (stepSel spec devel acc r) = _
        rw [hs]
      have hnone2 : (some r, v).1 = none → ((some r, v) : Option Release × Version).2 = ⟨[0, 0, 0], none⟩ := by
        intro h
        exact Option.noConfusion h
      have hsome2 : ∀ a0, (some r, v).1 = some a0 → Qual spec devel a0 ((some r, v) : Option Release × Version).2 := by
        intro a0 h
        have := Option.some.inj h
        rw [← this]
        exact hq
      have hih := ih (some r, v) hnone2 hsome2
      rw [hbg]
      refine ⟨?_, ?_⟩
      · intro h0
        rcases hih.1 h0 with ⟨heq, _⟩
        rw [heq] at h0
        exact Option.noConfusion h0
      · intro r0 h0
        rcases hih.2 r0 h0 with ⟨hq0, hle0, hmax, hmem⟩
        refine ⟨hq0, ?_, ?_, ?_⟩
        · exact verLE_trans acc.2 v _ hle hle0
        · intro r2 hr2 v2 hqv
          rcases List.mem_cons.mp hr2 with hr2 | hr2
          · subst hr2
            have h2 := hqv.2.2.1
            have h3 := hq.2.2.1
            rw [h3] at h2
            have hv2 := Option.some.inj h2
            rw [← hv2]
            exact hle0
          · exact hmax r2 hr2 v2 hqv
        · rcases hmem with hmem | hmem
          · have := Option.some.inj hmem
            rw [this]
            exact Or.inr (List.mem_cons.mpr (Or.inl rfl))
          · exact Or.inr (List.mem_cons.mpr (Or.inr hmem))

/-- C8, counterexample to the claim as stated: a directory whose manifest
exists but declares no version key is a valid hit for an unconstrained
request, although it neither lacks a manifest nor declares a satisfying
version. -/
theorem C8_versionless_manifest_valid :
    (check_local_package (some ⟨some ⟨.absent, []⟩⟩) ""
        [⟨.ge, ⟨[0, 0, 0], none⟩⟩]).1 = true ∧
      claimC8Valid (some ⟨some ⟨.absent, []⟩⟩) ""
        [⟨.ge, ⟨[0, 0, 0], none⟩⟩] = false := by
  decide

/-- C8, amended: a candidate is valid exactly when the directory exists and
either it has no manifest and the raw constraint text is empty, or its
manifest has no (or a falsy) version key and the raw constraint text is
empty, or its manifest version parses and the specifier set contains it; in
particular an unparsable manifest version is never a hit. -/
theorem C8_validity (dir : Option ReleaseDir) (spec_str : String)
    (spec : List Clause) :
    (check_local_package dir spec_str spec).1 = true ↔
      (∃ d, dir = some d ∧
        ((d.manifest = none ∧ spec_str = "") ∨
         (∃ ry, d.manifest = some ry ∧
           ((ry.version = .absent ∧ spec_str = "") ∨
            (∃ v, ry.version = .parsed v ∧ containsVer spec v = true))))) := by
  rcases dir with _ | d
  · simp [check_local_package]
  · rcases hm : d.manifest with _ | ry
    · simp [check_local_package, hm]
    · rcases hv : ry.version with _ | _ | v
      · constructor
        · intro h
          refine ⟨d, rfl, Or.inr ⟨ry, hm, Or.inl ⟨hv, ?_⟩⟩⟩
          simp [check_local_package, hm, hv] at h
          exact h
        · intro ⟨d2, hd2, hcase⟩
          cases hd2
          simp [check_local_package, hm, hv]
          rcases hcase with ⟨hnone, _⟩ | ⟨ry2, hry2, hcase2⟩
          · rw [hm] at hnone
            exact Option.noConfusion hnone
          · rw [hm] at hry2
            cases hry2
            rcases hcase2 with ⟨_, hs⟩ | ⟨v, hpv, _⟩
            · exact hs
            · rw [hv] at hpv
              exact YamlVersion.noConfusion hpv
      · constructor
        · intro h
          simp [check_local_package, hm, hv] at h
        · intro ⟨d2, hd2, hcase⟩
          cases hd2
          rcases hcase with ⟨hnone, _⟩ | ⟨ry2, hry2, hcase2⟩
          · rw [hm] at hnone
            exact absurd hnone (by simp)
          · rw [hm] at hry2
            cases hry2
            rcases hcase2 with ⟨hab, _⟩ | ⟨v, hpv, _⟩
            · rw [hv] at hab
              exact absurd hab (by simp)
            · rw [hv] at hpv
              exact absurd hpv (by simp)
      · constructor
        · intro h
          refine ⟨d, rfl, Or.inr ⟨ry, hm, Or.inr ⟨v, hv, ?_⟩⟩⟩
          simp [check_local_package, hm, hv] at h
          exact h
        · intro ⟨d2, hd2, hcase⟩
          cases hd2
          simp [check_local_package, hm, hv]
          rcases hcase with ⟨hnone, _⟩ | ⟨ry2, hry2, hcase2⟩
          · rw [hm] at hnone
            exact absurd hnone (by simp)
          · rw [hm] at hry2
            cases hry2
            rcases hcase2 with ⟨hab, _⟩ | ⟨v2, hpv, hcv⟩
            · rw [hv] at hab
              exact absurd hab (by simp)
            · rw [hv] at hpv
              have := YamlVersion.parsed.inj hpv
              rw [this]
              exact hcv

/-- C8 amended-claim witness: a cached manifest at version 1.2.0 satisfies
the unconstrained request. -/
theorem C8_validity_witness :
    (check_local_package (some ⟨some ⟨.parsed ⟨[1, 2, 0], none⟩, []⟩⟩) ""
        [⟨.ge, ⟨[0, 0, 0], none⟩⟩]).1 = true :=
  (C8_validity _ _ _).mpr
    ⟨_, rfl, Or.inr ⟨_, rfl, Or.inr ⟨_, rfl, by decide⟩⟩⟩

/-- C6, counterexample: package x exists in local source at 1.0.0 and is
requested as x>=2.0.0.  The claimed hard PackageConflict does not happen:
the item is skipped with a notice, the run is not marked unsuccessful, and
no remote fetch happens. -/
theorem C6_local_mismatch_no_conflict :
    processTarget envC6 [] "x>=2.0.0" = .localSkip ∧
      stepFails (processTarget envC6 [] "x>=2.0.0") = false ∧
      stepFetched (processTarget envC6 [] "x>=2.0.0") = false := by
  decide

/-- Shared helper: a cache miss plus an existing but non-valid local-source
directory makes the step a localSkip that neither fails nor fetches. -/
theorem processTarget_localSkip (env : Env) (processed : List (String × String))
    (target name sstr : String) (spec : List Clause)
    (hpt : parseTarget target = some (name, sstr))
    (hps : parseSpecSet sstr = some spec)
    (hc : (check_local_package (env.precompiled name) sstr spec).1 = false)
    (hl : (check_local_package (env.localSrc name) sstr spec).1 = false)
    (hdir : (env.localSrc name).isSome = true) :
    processTarget env processed target = .localSkip ∧
      stepFails (processTarget env processed target) = false ∧
      stepFetched (processTarget env processed target) = false := by
  have hout : processTarget env processed target = .localSkip := by
    simp [processTarget, hpt, hps, hc, hl, hdir]
  exact ⟨hout, by rw [hout]; rfl, by rw [hout]; rfl⟩

/-- C6, amended: whenever the cache misses, the local-source directory
exists and is not a valid hit (version mismatch included), the package is
skipped: no conflict is raised, the run is not marked unsuccessful, and the
remote source is never probed. -/
theorem C6_local_mismatch_skips (env : Env) (processed : List (String × String))
    (target name sstr : String) (spec : List Clause)
    (hpt : parseTarget target = some (name, sstr))
    (hps : parseSpecSet sstr = some spec)
    (hc : (check_local_package (env.precompiled name) sstr spec).1 = false)
    (hl : (check_local_package (env.localSrc name) sstr spec).1 = false)
    (hdir : (env.localSrc name).isSome = true) :
    processTarget env processed target = .localSkip ∧
      stepFails (processTarget env processed target) = false ∧
      stepFetched (processTarget env processed target) = false :=
  processTarget_localSkip env processed target name sstr spec hpt hps hc hl hdir

/-- C6 amended-claim witness at the concrete mismatching environment. -/
theorem C6_local_mismatch_skips_witness :
    processTarget envC6 [] "x>=2.0.0" = .localSkip ∧
      stepFails (processTarget envC6 [] "x>=2.0.0") = false ∧
      stepFetched (processTarget envC6 [] "x>=2.0.0") = false :=
  C6_local_mismatch_skips envC6 [] "x>=2.0.0" "x" ">=2.0.0"
    [⟨.ge, ⟨[2, 0, 0], none⟩⟩] (by decide) (by decide) (by decide) (by decide)
    (by decide)

/-- C7, counterexample: a queue item whose name the target regex cannot
parse ("=foo") is merely skipped with a warning — the run is NOT marked
unsuccessful (install_command leaves is_successful untouched on this path,
unlike the invalid-specifier path). -/
theorem C7_unparsable_name_not_failure :
    processTarget envBase [] "=foo" = .parseSkip ∧
      stepFails (processTarget envBase [] "=foo") = false ∧
      (install_command envBase ["=foo"] 2).successful = true := by
  decide

/-- C7, amended: an item with an unparsable name is skipped without marking
the run unsuccessful; an item whose clause text SpecifierSet refuses is
recorded as a failure and marks the run unsuccessful; in both cases the
loop simply continues with the remaining queue items (one step of the queue
loop never aborts the run). -/
theorem C7_malformed_spec_handling :
    (∀ (env : Env) (processed : List (String × String)) (t : String),
        parseTarget t = none →
        processTarget env processed t = .parseSkip ∧
          stepFails (processTarget env processed t) = false) ∧
    (∀ (env : Env) (processed : List (String × String)) (t name sstr : String),
        parseTarget t = some (name, sstr) →
        parseSpecSet sstr = none →
        processTarget env processed t = .specError ∧
          stepFails (processTarget env processed t) = true) ∧
    (∀ (env : Env) (fuel : Nat) (t : String) (rest : List String)
        (processed : List (String × String)) (ok : Bool)
        (log : List (String × StepOutcome)),
        runQueue env (fuel + 1) ⟨t :: rest, processed, ok, log⟩ =
          runQueue env fuel
            ⟨rest ++ stepEnqueues (processTarget env processed t),
             processed ++ stepAddsProcessed (processTarget env processed t),
             ok && !stepFails (processTarget env processed t),
             log ++ [(t, processTarget env processed t)]⟩) := by
  refine ⟨?_, ?_, ?_⟩
  · intro env processed t hpt
    have hout : processTarget env processed t = .parseSkip := by
      simp [processTarget, hpt]
    exact ⟨hout, by rw [hout]; rfl⟩
  · intro env processed t name sstr hpt hps
    have hout : processTarget env processed t = .specError := by
      simp [processTarget, hpt, hps]
    exact ⟨hout, by rw [hout]; rfl⟩
  · intro env fuel t rest processed ok log
    rfl

/-- C7 amended-claim witness: the unparsable name "=foo" and the invalid
clause text "~3" (SpecifierSet("~3") raises), plus one concrete queue
step. -/
theorem C7_malformed_spec_handling_witness :
    (processTarget envBase [] "=foo" = .parseSkip ∧
      stepFails (processTarget envBase [] "=foo") = false) ∧
    (processTarget envBase [] "x~3" = .specError ∧
      stepFails (processTarget envBase [] "x~3") = true) ∧
    runQueue envBase 1 ⟨["=foo"], [], true, []⟩ =
      runQueue envBase 0
        ⟨[] ++ stepEnqueues (processTarget envBase [] "=foo"),
         [] ++ stepAddsProcessed (processTarget envBase [] "=foo"),
         true && !stepFails (processTarget envBase [] "=foo"),
         [] ++ [("=foo", processTarget envBase [] "=foo")]⟩ :=
  ⟨C7_malformed_spec_handling.1 envBase [] "=foo" (by decide),
   C7_malformed_spec_handling.2.1 envBase [] "x~3" "x" "~3" (by decide)
     (by decide),
   C7_malformed_spec_handling.2.2 envBase 0 "=foo" [] [] true []⟩

/-- C9, counterexample: package x sits in local source with an unparsable
manifest version and is requested with a constraint.  Resolution does not
fall through to the next priority source (remote): the item is skipped and
no network fetch happens for the name. -/
theorem C9_local_invalid_no_fallthrough :
    processTarget envC9 [] "x>=1.0.0" = .localSkip ∧
      stepFetched (processTarget envC9 [] "x>=1.0.0") = false := by
  decide

/-- C9, amended: an unparsable manifest version never makes a hit (the
warning path leaves is_valid false and enqueues nothing); when the CACHE
manifest is unparsable the probe falls through to the rest of the chain
exactly as if the cache entry were absent; but when the LOCAL-SOURCE
manifest is unparsable the package is skipped without probing remote (and
without marking the run unsuccessful) — resolution never aborts in either
case. -/
theorem C9_invalid_version_fallthrough :
    (∀ (deps : List String) (sstr : String) (spec : List Clause),
        check_local_package (some ⟨some ⟨.invalid, deps⟩⟩) sstr spec =
          (false, [])) ∧
    (∀ (env : Env) (processed : List (String × String))
        (target name sstr : String) (spec : List Clause) (deps : List String),
        parseTarget target = some (name, sstr) →
        parseSpecSet sstr = some spec →
        env.precompiled name = some ⟨some ⟨.invalid, deps⟩⟩ →
        processTarget env processed target =
          processTarget
            { env with precompiled := fun n => if n = name then none
                else env.precompiled n } processed target) ∧
    (∀ (env : Env) (processed : List (String × String))
        (target name sstr : String) (spec : List Clause) (deps : List String),
        parseTarget target = some (name, sstr) →
        parseSpecSet sstr = some spec →
        env.localSrc name = some ⟨some ⟨.invalid, deps⟩⟩ →
        (check_local_package (env.precompiled name) sstr spec).1 = false →
        processTarget env processed target = .localSkip ∧
          stepFails (processTarget env processed target) = false ∧
          stepFetched (processTarget env processed target) = false) := by
  refine ⟨?_, ?_, ?_⟩
  · intro deps sstr spec
    rfl
  · intro env processed target name sstr spec deps hpt hps hcache
    simp [processTarget, hpt, hps, hcache, check_local_package]
  · intro env processed target name sstr spec deps hpt hps hloc hc
    have hl : (check_local_package (env.localSrc name) sstr spec).1 = false := by
      rw [hloc]
      rfl
    have hdir : (env.localSrc name).isSome = true := by
      rw [hloc]
      rfl
    exact processTarget_localSkip env processed target name sstr spec hpt hps
      hc hl hdir

/-- C1: probe priority.  (1) A bare package name (unconstrained spec) with
a valid precompiled cache entry resolves to the cache hit, with no network
fetch for that name, and the hit's dependency specs are exactly what gets
enqueued.  (2) On a cache miss, a valid local-source directory wins the
same way.  (3) A network fetch can only ever happen after the cache check
failed, the local-source check failed, and no local-source directory
exists. -/
theorem C1_cache_priority :
    (∀ (env : Env) (processed : List (String × String)) (target name : String),
        parseTarget target = some (name, "") →
        (check_local_package (env.precompiled name) ""
            [⟨.ge, ⟨[0, 0, 0], none⟩⟩]).1 = true →
        processTarget env processed target =
          .cacheHit (check_local_package (env.precompiled name) ""
            [⟨.ge, ⟨[0, 0, 0], none⟩⟩]).2 ∧
          stepFetched (processTarget env processed target) = false ∧
          stepFails (processTarget env processed target) = false ∧
          stepEnqueues (processTarget env processed target) =
            (check_local_package (env.precompiled name) ""
              [⟨.ge, ⟨[0, 0, 0], none⟩⟩]).2) ∧
    (∀ (env : Env) (processed : List (String × String))
        (target name sstr : String) (spec : List Clause),
        parseTarget target = some (name, sstr) →
        parseSpecSet sstr = some spec →
        (check_local_package (env.precompiled name) sstr spec).1 = false →
        (check_local_package (env.localSrc name) sstr spec).1 = true →
        processTarget env processed target =
          .localHit (check_local_package (env.localSrc name) sstr spec).2 ∧
          stepFetched (processTarget env processed target) = false ∧
          stepEnqueues (processTarget env processed target) =
            (check_local_package (env.localSrc name) sstr spec).2) ∧
    (∀ (env : Env) (processed : List (String × String)) (target : String),
        stepFetched (processTarget env processed target) = true →
        ∃ name sstr spec, parseTarget target = some (name, sstr) ∧
          parseSpecSet sstr = some spec ∧
          (check_local_package (env.precompiled name) sstr spec).1 = false ∧
          (check_local_package (env.localSrc name) sstr spec).1 = false ∧
          env.localSrc name = none) := by
  refine ⟨?_, ?_, ?_⟩
  · intro env processed target name hpt hc
    have hout : processTarget env processed target =
        .cacheHit (check_local_package (env.precompiled name) ""
          [⟨.ge, ⟨[0, 0, 0], none⟩⟩]).2 := by
      simp [processTarget, hpt, parseSpecSet, hc]
    exact ⟨hout, by rw [hout]; rfl, by rw [hout]; rfl, by rw [hout]; rfl⟩
  · intro env processed target name sstr spec hpt hps hc hl
    have hout : processTarget env processed target =
        .localHit (check_local_package (env.localSrc name) sstr spec).2 := by
      simp [processTarget, hpt, hps, hc, hl]
    exact ⟨hout, by rw [hout]; rfl, by rw [hout]; rfl⟩
  · intro env processed target hf
    rcases hpt : parseTarget target with _ | ⟨name, sstr⟩
    · have hout : processTarget env processed target = .parseSkip := by
        simp [processTarget, hpt]
      rw [hout] at hf
      simp [stepFetched] at hf
    · rcases hps : parseSpecSet sstr with _ | spec
      · have hout : processTarget env processed target = .specError := by
          simp [processTarget, hpt, hps]
        rw [hout] at hf
        simp [stepFetched] at hf
      · by_cases hc : (check_local_package (env.precompiled name) sstr spec).1 = true
        · have hout : processTarget env processed target =
              .cacheHit (check_local_package (env.precompiled name) sstr spec).2 := by
            simp [processTarget, hpt, hps, hc]
          rw [hout] at hf
          simp [stepFetched] at hf
        · have hc2 : (check_local_package (env.precompiled name) sstr spec).1
              = false := Bool.eq_false_iff.mpr hc
          by_cases hl : (check_local_package (env.localSrc name) sstr spec).1 = true
          · have hout : processTarget env processed target =
                .localHit (check_local_package (env.localSrc name) sstr spec).2 := by
              simp [processTarget, hpt, hps, hc2, hl]
            rw [hout] at hf
            simp [stepFetched] at hf
          · have hl2 : (check_local_package (env.localSrc name) sstr spec).1
                = false := Bool.eq_false_iff.mpr hl
            by_cases hd : (env.localSrc name).isSome = true
            · have hout : processTarget env processed target = .localSkip := by
                simp [processTarget, hpt, hps, hc2, hl2, hd]
              rw [hout] at hf
              simp [stepFetched] at hf
            · have hd2 : env.localSrc name = none := by
                rcases hopt : env.localSrc name with _ | d
                · rfl
                · rw [hopt] at hd
                  exact absurd rfl hd
              exact ⟨name, sstr, spec, rfl, hps, hc2, hl2, hd2⟩

/-- C1 witness: the concrete cached package a (deps b, c>=0.2.0), a
local-source hit, and a remote fetch that indeed followed three misses. -/
theorem C1_cache_priority_witness :
    (processTarget envCache [] "a" =
        .cacheHit (check_local_package (envCache.precompiled "a") ""
          [⟨.ge, ⟨[0, 0, 0], none⟩⟩]).2 ∧
      stepFetched (processTarget envCache [] "a") = false ∧
      stepFails (processTarget envCache [] "a") = false ∧
      stepEnqueues (processTarget envCache [] "a") =
        (check_local_package (envCache.precompiled "a") ""
          [⟨.ge, ⟨[0, 0, 0], none⟩⟩]).2) ∧
    (∃ name sstr spec, parseTarget "r" = some (name, sstr) ∧
      parseSpecSet sstr = some spec ∧
      (check_local_package (envRemote.precompiled name) sstr spec).1 = false ∧
      (check_local_package (envRemote.localSrc name) sstr spec).1 = false ∧
      envRemote.localSrc name = none) :=
  ⟨C1_cache_priority.1 envCache [] "a" "a" (by decide) (by decide),
   C1_cache_priority.2.2 envRemote [] "r" (by decide)⟩

/-- Clauses built from scanned texts never carry a pre-release part. -/
theorem buildClause_pre (p : List Char × List Char) (c : Clause)
    (h : buildClause p = some c) : c.ver.pre = none := by
  unfold buildClause at h
  rcases hop : parseOpChars p.1 with _ | op
  · rw [hop] at h
    simp at h
  · rw [hop] at h
    rcases hseg : parseSegs p.2 with _ | segs
    · rw [hseg] at h
      simp at h
    · rw [hseg] at h
      simp only [Option.bind_eq_bind, Option.some_bind] at h
      by_cases hcnd : op = Cop.tilde ∧ segs.length < 2
      · rw [if_pos hcnd] at h
        exact Option.noConfusion h
      · rw [if_neg hcnd] at h
        have := Option.some.inj h
        rw [← this]

theorem buildClauses_pre :
    ∀ (ps : List (List Char × List Char)) (cl : List Clause),
      buildClauses ps = some cl → ∀ c ∈ cl, c.ver.pre = none := by
  intro ps
  induction ps with
  | nil =>
    intro cl h c hc
    have : cl = [] := (Option.some.inj h).symm
    rw [this] at hc
    exact absurd hc (by simp)
  | cons p ps ih =>
    intro cl h c hc
    unfold buildClauses at h
    rcases hbc : buildClause p with _ | c0
    · rw [hbc] at h
      exact Option.noConfusion h
    · rw [hbc] at h
      rcases hbcs : buildClauses ps with _ | cs
      · rw [hbcs] at h
        exact Option.noConfusion h
      · rw [hbcs] at h
        have hcl := Option.some.inj h
        rw [← hcl] at hc
        rcases List.mem_cons.mp hc with hc | hc
        · rw [hc]
          exact buildClause_pre p c0 hbc
        · exact ih cs hbcs c hc

/-- C2: best-release selection.  (1) Every specifier set install_command
can parse has only pre-release-free clauses.  (2) For such a set, the
selection loop returns a qualifying release whose version is at least every
version any listed release qualifies at (highest satisfying, not first
found; the prerelease gate is part of qualifying); and it returns none
exactly when no listed release qualifies.  (3) In that case the step is the
noRelease outcome and the run is marked unsuccessful. -/
theorem C2_select_best :
    (∀ (s : String) (cl : List Clause), parseSpecSet s = some cl →
        ∀ c ∈ cl, c.ver.pre = none) ∧
    (∀ (spec : List Clause) (devel : Bool) (rels : List Release),
        (∀ c ∈ spec, c.ver.pre = none) →
        ((∃ r v, bestRelease rels spec devel = some r ∧ Qual spec devel r v ∧
            ∀ r2 ∈ rels, ∀ v2, Qual spec devel r2 v2 → verLE v2 v = true) ∨
         (bestRelease rels spec devel = none ∧
            ∀ r2 ∈ rels, ∀ v2, ¬ Qual spec devel r2 v2))) ∧
    (∀ (env : Env) (processed : List (String × String))
        (target name sstr : String) (spec : List Clause)
        (owner repoName : String) (rels : List Release),
        parseTarget target = some (name, sstr) →
        parseSpecSet sstr = some spec →
        (check_local_package (env.precompiled name) sstr spec).1 = false →
        (check_local_package (env.localSrc name) sstr spec).1 = false →
        env.localSrc name = none →
        env.repos name = .repo owner repoName →
        env.releases owner repoName = some rels →
        bestRelease rels spec env.userDevel = none →
        processTarget env processed target = .noRelease ∧
          stepFails (processTarget env processed target) = true) := by
  refine ⟨?_, ?_, ?_⟩
  · intro s cl h c hc
    unfold parseSpecSet at h
    by_cases hs : s = ""
    · rw [if_pos hs] at h
      have := Option.some.inj h
      rw [← this] at hc
      rcases List.mem_singleton.mp hc with hc2
      rw [hc2]
    · rw [if_neg hs] at h
      exact buildClauses_pre _ cl h c hc
  · intro spec devel rels hpre
    have h := bestGo_sound spec devel hpre rels (none, ⟨[0, 0, 0], none⟩)
      (fun _ => rfl) (fun a0 h0 => Option.noConfusion h0)
    rcases hres : (bestGo spec devel rels (none, ⟨[0, 0, 0], none⟩)).1 with _ | r0
    · right
      exact ⟨hres, (h.1 hres).2⟩
    · left
      rcases h.2 r0 hres with ⟨hq0, _, hmax, _⟩
      exact ⟨r0, (bestGo spec devel rels (none, ⟨[0, 0, 0], none⟩)).2,
        hres, hq0, hmax⟩
  · intro env processed target name sstr spec owner repoName rels hpt hps hc hl
      hd hrepo hrel hbest
    have hlnone : (check_local_package (none : Option ReleaseDir) sstr spec).1
        = false := rfl
    have hout : processTarget env processed target = .noRelease := by
      simp [processTarget, hpt, hps, hc, hd, hrepo, hrel, hbest, hlnone]
    exact ⟨hout, by rw [hout]; rfl⟩

/-- C2 witness: the parsed ">=1.0.0" has pre-release-free clauses; on the
release list [B@1.0.0, B@1.1.0] the selection verdict holds at that
concrete input; and a registered package with an empty release list steps
to noRelease and marks the run unsuccessful. -/
theorem C2_select_best_witness :
    (∀ c ∈ specGe1, c.ver.pre = none) ∧
    ((∃ r v, bestRelease [relB10, relB11] specGe1 false = some r ∧
        Qual specGe1 false r v ∧
        ∀ r2 ∈ [relB10, relB11], ∀ v2, Qual specGe1 false r2 v2 →
          verLE v2 v = true) ∨
     (bestRelease [relB10, relB11] specGe1 false = none ∧
        ∀ r2 ∈ [relB10, relB11], ∀ v2, ¬ Qual specGe1 false r2 v2)) ∧
    (processTarget envNoRel [] "r" = .noRelease ∧
      stepFails (processTarget envNoRel [] "r") = true) :=
  ⟨C2_select_best.1 ">=1.0.0" specGe1 (by decide),
   C2_select_best.2.1 specGe1 false [relB10, relB11] (by decide),
   C2_select_best.2.2 envNoRel [] "r" "r" "" [⟨.ge, ⟨[0, 0, 0], none⟩⟩]
     "own" "rep" [] (by decide) (by decide) (by decide) (by decide)
     (by decide) (by decide) (by decide) (by decide)⟩

/-- C9 amended-claim witness: the unparsable cache manifest behaves like an
absent cache entry, and the unparsable local-source manifest ends in a
skip with no fetch and no failure. -/
theorem C9_invalid_version_fallthrough_witness :
    check_local_package (some ⟨some ⟨.invalid, ["d"]⟩⟩) ">=1.0.0"
        [⟨.ge, ⟨[1, 0, 0], none⟩⟩] = (false, []) ∧
    processTarget envC9cache [] "x>=1.0.0" =
      processTarget
        { envC9cache with precompiled := fun n => if n = "x" then none
            else envC9cache.precompiled n } [] "x>=1.0.0" ∧
    (processTarget envC9 [] "x>=1.0.0" = .localSkip ∧
      stepFails (processTarget envC9 [] "x>=1.0.0") = false ∧
      stepFetched (processTarget envC9 [] "x>=1.0.0") = false) :=
  ⟨C9_invalid_version_fallthrough.1 ["d"] ">=1.0.0" [⟨.ge, ⟨[1, 0, 0], none⟩⟩],
   C9_invalid_version_fallthrough.2.1 envC9cache [] "x>=1.0.0" "x" ">=1.0.0"
     [⟨.ge, ⟨[1, 0, 0], none⟩⟩] [] (by decide) (by decide) (by decide),
   C9_invalid_version_fallthrough.2.2 envC9 [] "x>=1.0.0" "x" ">=1.0.0"
     [⟨.ge, ⟨[1, 0, 0], none⟩⟩] [] (by decide) (by decide) (by decide)
     (by decide)⟩
